import Mathlib

/-!
Shallow embedding of the `parsec` Go parser-combinator library
(file `parsec.go`) and proofs of its specified properties.

Modelling conventions:
* Go strings are modelled as their sequence of runes (`GoStr := List Char`);
  Go's `len` on a string counts UTF-8 bytes, modelled by `goLen`.
* A Go parser mutates its `Vessel` in place; we use explicit state passing:
  a parser maps a vessel to `Option (Output × Bool × Vessel)`.  The `none`
  result models a run that does not return normally (a runtime panic from a
  failed type assertion, or a loop that does not terminate within the fuel
  given to the looping combinators `Many`/`SepBy`).
* `Output`, Go's `interface{}` result type, is a closed sum of the result
  shapes the library produces: `nil`, an `int` holding a rune, a string,
  a `[]interface{}` slice (`arr`), and a `*vector.Vector` (`vec`).
* The `Spec` classifier fields (`IdentStart` …) are parsers over the
  spec-free part of the vessel (`Core`); this breaks the type-level cycle
  Spec → Parser → Vessel → Spec and covers every classifier that does not
  itself read or write the `Spec` (which none in the library does).
-/

namespace Parsec

/-- Go string, as its sequence of runes. -/
abbrev GoStr := List Char

/-- Number of bytes of the UTF-8 encoding of one rune. -/
def runeLen (c : Char) : Nat :=
  if c.toNat < 0x80 then 1
  else if c.toNat < 0x800 then 2
  else if c.toNat < 0x10000 then 3
  else 4

/-- Go `len(s)` for a string: the number of bytes of its UTF-8 encoding. -/
def goLen (s : GoStr) : Nat := (s.map runeLen).sum

/-- Go `unicode.IsSpace` on a rune: the Unicode White_Space property. -/
def goIsSpace (c : Char) : Bool :=
  let n := c.toNat
  (0x9 ≤ n && n ≤ 0xD) || n == 0x20 || n == 0x85 || n == 0xA0 ||
    n == 0x1680 || (0x2000 ≤ n && n ≤ 0x200A) || n == 0x2028 ||
    n == 0x2029 || n == 0x202F || n == 0x205F || n == 0x3000

/-- Position in the input (struct `Position` in the source). -/
structure Position where
  name : GoStr
  line : Int
  column : Int
  offset : Int
deriving DecidableEq, Repr

/-- Output of parsers (Go `interface{}`), as a closed sum of the shapes the
library produces. `int c` is a Go `int` holding the rune `c`; `arr` is a
`[]interface{}` slice; `vec` is a `*vector.Vector`. -/
inductive Output where
  | nil : Output
  | int (c : Char) : Output
  | str (s : GoStr) : Output
  | arr (xs : List Output) : Output
  | vec (xs : List Output) : Output
deriving Repr

/-- Spec-free part of a `StringVessel`: user state, input, position. -/
structure Core (σ : Type) where
  state : σ
  input : GoStr
  position : Position

/-- A parser over the spec-free part of the vessel; used for the `Spec`
classifier fields. -/
def PParser (σ : Type) := Core σ → Option (Output × Bool × Core σ)

/-- Specifications for the parser (struct `Spec` in the source). -/
structure Spec (σ : Type) where
  commentStart : GoStr := []
  commentEnd : GoStr := []
  commentLine : GoStr := []
  nestedComments : Bool := false
  identStart : PParser σ
  identLetter : PParser σ
  opStart : PParser σ
  opLetter : PParser σ
  reservedNames : List GoStr := []
  reservedOpNames : List GoStr := []
  caseSensitive : Bool := true

/-- Basic string vessel for parsing over a string input
(struct `StringVessel` in the source). -/
structure StringVessel (σ : Type) where
  state : σ
  input : GoStr
  position : Position
  spec : Spec σ

/-- A Parser takes a vessel and returns any matches (Output) and whether or
not the match was valid, plus (state passing) the mutated vessel.  `none`
models a panic or running out of fuel. -/
def Parser (σ : Type) := StringVessel σ → Option (Output × Bool × StringVessel σ)

variable {σ : Type}

/-- The scanning loop shared by `GetInput`/`Next`: the suffix of `s` from
rune index `i` (empty when `i` is negative or past the end, as the Go
`for … range` loop never matches those indices). -/
def dropAt : GoStr → Int → GoStr
  | [], _ => []
  | c :: cs, i => if i = 0 then c :: cs else dropAt cs (i - 1)

/-- The rune of `s` at rune index `i`, if any (the `Next` scanning loop). -/
def charAt : GoStr → Int → Option Char
  | [], _ => none
  | c :: cs, i => if i = 0 then some c else charAt cs (i - 1)

/-- Method `GetInput` of `StringVessel`: the input from the current rune
offset on ("" when the offset is never reached by the scan). -/
def StringVessel.GetInput (v : StringVessel σ) : GoStr :=
  dropAt v.input v.position.offset

/-- Collection loop of method `Get`: runes of the input at rune index `n`
(counting from the given start) with `off ≤ n`, stopping at the first index
exceeding `hi`. -/
def getChars : GoStr → Int → Int → Int → GoStr
  | [], _, _, _ => []
  | c :: cs, n, off, hi =>
    if off ≤ n then
      (if hi < n then [] else c :: getChars cs (n + 1) off hi)
    else getChars cs (n + 1) off hi

/-- Method `Get` of `StringVessel`: guarded by the byte length of the whole
input versus `offset + i`, then the collection loop (which keeps runes at
indices `offset … offset + i` inclusive). -/
def StringVessel.Get (v : StringVessel σ) (i : Int) : GoStr × Bool :=
  if (goLen v.input : Int) < v.position.offset + i then ([], false)
  else (getChars v.input 0 v.position.offset (v.position.offset + i), true)

/-- Method `Next` of `StringVessel`: guarded by the byte length of the whole
input versus `offset + 1`, then the rune at the current offset. -/
def StringVessel.Next (v : StringVessel σ) : Char × Bool :=
  if (goLen v.input : Int) < v.position.offset + 1 then (Char.ofNat 0, false)
  else
    match charAt v.input v.position.offset with
    | some c => (c, true)
    | none => (Char.ofNat 0, false)

/-- Method `Pop` of `StringVessel`: advance the offset by `i`. -/
def StringVessel.Pop (v : StringVessel σ) (i : Int) : StringVessel σ :=
  { v with position := { v.position with offset := v.position.offset + i } }

/-- Method `Push` of `StringVessel`: retreat the offset by `i`. -/
def StringVessel.Push (v : StringVessel σ) (i : Int) : StringVessel σ :=
  { v with position := { v.position with offset := v.position.offset - i } }

/-- Rebuild a full vessel from a core, keeping the given vessel's spec. -/
def StringVessel.withCore (v : StringVessel σ) (c : Core σ) : StringVessel σ :=
  ⟨c.state, c.input, c.position, v.spec⟩

/-- Run a spec-free parser as a full parser (the spec passes through
untouched, as no classifier in the library reads or writes it). -/
def PParser.lift (p : PParser σ) : Parser σ := fun v =>
  (p ⟨v.state, v.input, v.position⟩).map fun r => (r.1, r.2.1, v.withCore r.2.2)

/-- Token that satisfies a condition (`Satisfy` in the source).  Peeks via
`Next`; on a present element satisfying the check, `Pop(1)` and succeed with
the element; otherwise fail with `nil`. -/
def Satisfy (check : Char → Bool) : Parser σ := fun v =>
  let t := v.Next
  if t.2 && check t.1 then some (.int t.1, true, v.Pop 1)
  else some (.nil, false, v)

/-- Loop of `Many`: iterate the sub-parser, collecting outputs of successful
calls, stopping (and keeping the mutated vessel) at the first failure.
`none` when the sub-parser panics or the fuel runs out. -/
def manyIter (q : Parser σ) : Nat → StringVessel σ → Option (List Output × StringVessel σ)
  | 0, _ => none
  | fuel + 1, v =>
    match q v with
    | none => none
    | some (_, false, v') => some ([], v')
    | some (out, true, v') => (manyIter q fuel v').map fun r => (out :: r.1, r.2)

/-- Match a parser 0 or more times (`Many` in the source); returns the
collected outputs as a `[]interface{}` slice and always reports a match. -/
def Many (fuel : Nat) (q : Parser σ) : Parser σ := fun v =>
  (manyIter q fuel v).map fun r => (.arr r.1, true, r.2)

/-- Skip whitespace (`Whitespace` in the source): `Many(Satisfy(IsSpace))`. -/
def Whitespace (fuel : Nat) : Parser σ := Many fuel (Satisfy goIsSpace)

/-- Match a parser and skip whitespace (`Lexeme` in the source): run the
parser, then `Whitespace` unconditionally, and return the parser's own
output and match flag. -/
def Lexeme (fuel : Nat) (q : Parser σ) : Parser σ := fun v =>
  match q v with
  | none => none
  | some (out, matched, v₁) =>
    match Whitespace fuel v₁ with
    | none => none
    | some (_, _, v₂) => some (out, matched, v₂)

/-- Loop of `SepBy`: iterate match-then-delimiter, collecting the match
outputs, stopping at the first failure of either. -/
def sepIter (delim q : Parser σ) : Nat → StringVessel σ → Option (List Output × StringVessel σ)
  | 0, _ => none
  | fuel + 1, v =>
    match q v with
    | none => none
    | some (_, false, v') => some ([], v')
    | some (out, true, v₁) =>
      match delim v₁ with
      | none => none
      | some (_, false, v₂) => some ([out], v₂)
      | some (_, true, v₂) => (sepIter delim q fuel v₂).map fun r => (out :: r.1, r.2)

/-- Match a parser separated by another parser 0 or more times, trailing
delimiters valid (`SepBy` in the source); returns the collected outputs as
a `*vector.Vector` and always reports a match. -/
def SepBy (fuel : Nat) (delim q : Parser σ) : Parser σ := fun v =>
  (sepIter delim q fuel v).map fun r => (.vec r.1, true, r.2)

/-- Loop of `Any`: try the parsers in order on the (possibly mutated)
vessel, returning the first success; `(nil, false)` when all fail. -/
def anyIter : List (Parser σ) → StringVessel σ → Option (Output × Bool × StringVessel σ)
  | [], v => some (.nil, false, v)
  | p :: ps, v =>
    match p v with
    | none => none
    | some (m, true, v') => some (m, true, v')
    | some (_, false, v') => anyIter ps v'

/-- Go through the parsers until one matches (`Any` in the source). -/
def Any (ps : List (Parser σ)) : Parser σ := fun v => anyIter ps v

/-- Loop of `All`, threading the named return values `(match, ok)` (whose
Go zero values are `nil, false`). -/
def allIter : List (Parser σ) → Output → Bool → StringVessel σ → Option (Output × Bool × StringVessel σ)
  | [], m, ok, v => some (m, ok, v)
  | p :: ps, _, _, v =>
    match p v with
    | none => none
    | some (m, false, v') => some (m, false, v')
    | some (m, true, v') => allIter ps m true v'

/-- Match all parsers, returning the final result, stopping at the first
failure, without reverting (`All` in the source). -/
def All (ps : List (Parser σ)) : Parser σ := fun v => allIter ps .nil false v

/-- Loop of `Collect`: run the parsers in order accumulating their outputs;
an inner `none` marks the first failure (with the vessel it left). -/
def collectIter : List (Parser σ) → StringVessel σ → Option (Option (List Output) × StringVessel σ)
  | [], v => some (some [], v)
  | p :: ps, v =>
    match p v with
    | none => none
    | some (_, false, v') => some (none, v')
    | some (m, true, v') =>
      (collectIter ps v').map fun r => (r.1.map fun xs => m :: xs, r.2)

/-- Match all parsers, collecting their outputs into a vector; fails as a
whole when any sub-parser fails, without reverting (`Collect` in the
source). -/
def Collect (ps : List (Parser σ)) : Parser σ := fun v =>
  (collectIter ps v).map fun r =>
    match r.1 with
    | some xs => (.vec xs, true, r.2)
    | none => (.nil, false, r.2)

/-- Try a parse and revert the state and position if it fails (`Try` in the
source). -/
def Try (q : Parser σ) : Parser σ := fun v =>
  match q v with
  | none => none
  | some (out, true, v') => some (out, true, v')
  | some (out, false, v') =>
    some (out, false, { v' with state := v.state, position := v.position })

/-- Try matching begin, match, and then end (`Between` in the source):
`Try(Collect(begin, match, end))`, reduced on success to the element at
index 1 of the collected vector (`none` models the `At(1)` / type-assertion
panics, which cannot fire on the library's own outputs). -/
def Between (begin end_ q : Parser σ) : Parser σ := fun v =>
  match Try (Collect [begin, q, end_]) v with
  | none => none
  | some (_, false, v') => some (.nil, false, v')
  | some (parse, true, v') =>
    match parse with
    | .vec xs =>
      match xs.get? 1 with
      | some m => some (m, true, v')
      | none => none
    | _ => none

/-- Match a string and pop the string's byte length from the input
(`String` in the source): `strings.HasPrefix(GetInput, str)`, then
`Pop(len(str))`. -/
def String (str : GoStr) : Parser σ := fun v =>
  if str.isPrefixOf v.GetInput then some (.str str, true, v.Pop (goLen str : Int))
  else some (.nil, false, v)

/-- Match a string and consume any following whitespace (`Symbol`). -/
def Symbol (fuel : Nat) (str : GoStr) : Parser σ := Lexeme fuel (String str)

/-- Lexeme parser for `match` wrapped in parens (`Parens`). -/
def Parens (fuel : Nat) (q : Parser σ) : Parser σ :=
  Lexeme fuel (Between (Symbol fuel ['(']) (Symbol fuel [')']) q)

/-- The element-wise `v.(int)` type assertions of `Identifier`'s result
loop: the runes of a slice of rune outputs, `none` on any other shape. -/
def extractRunes : List Output → Option (List Char)
  | [] => some []
  | .int c :: rest => (extractRunes rest).map fun cs => c :: cs
  | _ :: _ => none

/-- Match `Spec.IdentStart` once, then `Many(Spec.IdentLetter)`, and return
the concatenated matched runes as a string (`Identifier` in the source).
On a failing `IdentStart` the bare `return` yields the zero values
`(nil, false)` with the vessel as the classifier left it. -/
def Identifier (fuel : Nat) : Parser σ := fun v =>
  match PParser.lift v.spec.identStart v with
  | none => none
  | some (_, false, v₁) => some (.nil, false, v₁)
  | some (n, true, v₁) =>
    match Many fuel (PParser.lift v.spec.identLetter) v₁ with
    | none => none
    | some (ns, ok2, v₂) =>
      if ok2 then
        match ns with
        | .arr xs =>
          match extractRunes xs, n with
          | some rest, .int c => some (.str (c :: rest), true, v₂)
          | _, _ => none
        | _ => none
      else some (.nil, false, v₂)

/-- Helper for passing a parser by reference (`R` in the source): at
invocation time the pointer is dereferenced; we model the dereferenced
parser directly. -/
def R (deref : Parser σ) : Parser σ := fun v => deref v

/-- The maximal run of successful calls of a parser from a vessel: the list
of the outputs of the successful invocations, ending at the vessel left by
the first failing invocation.  This is the `Many` loop stated as a
relation, independent of the fuel. -/
inductive ManyTrace (q : Parser σ) : StringVessel σ → List Output → StringVessel σ → Prop
  | stop {v v' : StringVessel σ} {o : Output}
      (h : q v = some (o, false, v')) : ManyTrace q v [] v'
  | step {v v₁ v₂ : StringVessel σ} {o : Output} {xs : List Output}
      (h : q v = some (o, true, v₁)) (t : ManyTrace q v₁ xs v₂) :
      ManyTrace q v (o :: xs) v₂

/-- The `SepBy` loop stated as a relation: alternate the match parser and
the delimiter, collecting the match outputs, stopping at the first failure
of either (a trailing failed delimiter attempt ends the run). -/
inductive SepTrace (d q : Parser σ) : StringVessel σ → List Output → StringVessel σ → Prop
  | stopMatch {v v' : StringVessel σ} {o : Output}
      (h : q v = some (o, false, v')) : SepTrace d q v [] v'
  | stopSep {v v₁ v₂ : StringVessel σ} {o o₂ : Output}
      (h : q v = some (o, true, v₁)) (hd : d v₁ = some (o₂, false, v₂)) :
      SepTrace d q v [o] v₂
  | step {v v₁ v₂ v₃ : StringVessel σ} {o o₂ : Output} {xs : List Output}
      (h : q v = some (o, true, v₁)) (hd : d v₁ = some (o₂, true, v₂))
      (t : SepTrace d q v₂ xs v₃) : SepTrace d q v (o :: xs) v₃

/-- A parser leaves the vessel's underlying input and Spec unchanged on
every normal return. -/
def Preserves (p : Parser σ) : Prop :=
  ∀ v r, p v = some r → r.2.2.input = v.input ∧ r.2.2.spec = v.spec

/-- A spec-free classifier leaves the input unchanged on every normal
return. -/
def PreservesCore (p : PParser σ) : Prop :=
  ∀ c r, p c = some r → r.2.2.input = c.input

/-- The vessel with its offset advanced by `k` elements, everything else
unchanged. -/
def advanceN (v : StringVessel σ) (k : Nat) : StringVessel σ :=
  { v with position := { v.position with offset := v.position.offset + (k : Int) } }

/-- A Spec whose classifiers all fail without consuming; used for concrete
test vessels. -/
def wSpec : Spec Unit where
  identStart := fun c => some (.nil, false, c)
  identLetter := fun c => some (.nil, false, c)
  opStart := fun c => some (.nil, false, c)
  opLetter := fun c => some (.nil, false, c)

/-- A concrete string vessel over the given input and offset. -/
def mkV (s : GoStr) (off : Int) : StringVessel Unit :=
  ⟨(), s, ⟨[], 0, 0, off⟩, wSpec⟩

/-- A Satisfy-style spec-free classifier: consume one element when the
check holds for the rune at the current offset, fail without consuming
otherwise. -/
def pSatisfy (check : Char → Bool) : PParser σ := fun c =>
  match charAt c.input c.position.offset with
  | some ch =>
    if check ch then
      some (.int ch, true,
        { c with position := { c.position with offset := c.position.offset + 1 } })
    else some (.nil, false, c)
  | none => some (.nil, false, c)

/-- A Spec whose `IdentStart` accepts letters and `IdentLetter` accepts
letters and digits, as a typical identifier grammar would configure. -/
def idSpec : Spec Unit where
  identStart := pSatisfy Char.isAlpha
  identLetter := pSatisfy Char.isAlphanum
  opStart := fun c => some (.nil, false, c)
  opLetter := fun c => some (.nil, false, c)

/-- A concrete string vessel carrying the identifier Spec. -/
def mkIdV (s : GoStr) (off : Int) : StringVessel Unit :=
  ⟨(), s, ⟨[], 0, 0, off⟩, idSpec⟩

lemma runeLen_pos (c : Char) : 1 ≤ runeLen c := by
  unfold runeLen
  split
  · exact le_refl 1
  · split
    · omega
    · split <;> omega

lemma goLen_cons (c : Char) (s : GoStr) : goLen (c :: s) = runeLen c + goLen s := by
  simp [goLen]

lemma charAt_le_goLen {s : GoStr} {i : Int} {c : Char}
    (h : charAt s i = some c) : i + 1 ≤ (goLen s : Int) := by
  induction s generalizing i with
  | nil => simp [charAt] at h
  | cons a as ih =>
    rw [charAt] at h
    by_cases hi : i = 0
    · subst hi
      have := runeLen_pos a
      rw [goLen_cons]
      push_cast
      omega
    · rw [if_neg hi] at h
      have := ih h
      have := runeLen_pos a
      rw [goLen_cons]
      push_cast
      omega

lemma Next_eq_some {v : StringVessel σ} {c : Char}
    (h : charAt v.input v.position.offset = some c) : v.Next = (c, true) := by
  have hle := charAt_le_goLen h
  rw [StringVessel.Next, if_neg (by omega), h]

lemma Next_eq_none {v : StringVessel σ}
    (h : charAt v.input v.position.offset = none) :
    v.Next = (Char.ofNat 0, false) := by
  rw [StringVessel.Next]
  split
  · rfl
  · rw [h]

lemma Satisfy_eq_some {check : Char → Bool} {v : StringVessel σ} {c : Char}
    (h : charAt v.input v.position.offset = some c) (hc : check c = true) :
    Satisfy check v = some (.int c, true, v.Pop 1) := by
  rw [Satisfy]
  rw [Next_eq_some h]
  simp [hc]

lemma Satisfy_eq_none {check : Char → Bool} {v : StringVessel σ}
    (h : charAt v.input v.position.offset = none) :
    Satisfy check v = some (.nil, false, v) := by
  rw [Satisfy, Next_eq_none h]
  simp

lemma Satisfy_eq_reject {check : Char → Bool} {v : StringVessel σ} {c : Char}
    (h : charAt v.input v.position.offset = some c) (hc : check c = false) :
    Satisfy check v = some (.nil, false, v) := by
  rw [Satisfy, Next_eq_some h]
  simp [hc]

lemma Try_fail_inv {q : Parser σ} {v : StringVessel σ} {out : Output}
    {v' : StringVessel σ} (h : Try q v = some (out, false, v')) :
    ∃ v₁, q v = some (out, false, v₁) ∧
      v' = { v₁ with state := v.state, position := v.position } := by
  rw [Try] at h
  rcases hq : q v with _ | ⟨o, b, v₁⟩ <;> rw [hq] at h
  · simp at h
  · cases b
    · simp only [Option.some.injEq, Prod.mk.injEq, true_and] at h
      obtain ⟨ho, hv⟩ := h
      exact ⟨v₁, by simp [hq, ho], hv.symm⟩
    · simp at h

lemma Try_fail_restore {q : Parser σ} {v : StringVessel σ} {out : Output}
    {v' : StringVessel σ} (h : Try q v = some (out, false, v')) :
    v'.state = v.state ∧ v'.position = v.position := by
  obtain ⟨v₁, _, hv⟩ := Try_fail_inv h
  subst hv
  exact ⟨rfl, rfl⟩

lemma Try_succ {q : Parser σ} {v : StringVessel σ} {out : Output}
    {v' : StringVessel σ} (h : q v = some (out, true, v')) :
    Try q v = some (out, true, v') := by
  rw [Try, h]

/-- C1: for every parser `q` and every vessel, when `q` fails inside
`Try(q)` the vessel's `State` and `Position` after `Try(q)` returns equal
their values before the call, however much `q` consumed or changed; when
`q` succeeds, `Try` passes the post-`q` result through unchanged. -/
theorem try_reverts_state_and_position (q : Parser σ) (v : StringVessel σ) :
    (∀ out v', Try q v = some (out, false, v') →
      v'.state = v.state ∧ v'.position = v.position) ∧
    (∀ out v', q v = some (out, true, v') → Try q v = some (out, true, v')) :=
  ⟨fun _ _ h => Try_fail_restore h, fun _ _ h => Try_succ h⟩

/-- Witness for C1: `All(String "a", String "b")` on `"ax"` consumes one
element and then fails; `Try` of it fails with the vessel restored exactly
(here: equal to the initial vessel), while on `"ab"` the successful result
stands. -/
theorem try_reverts_state_and_position_witness :
    ((mkV ['a', 'x'] 0).state = (mkV ['a', 'x'] 0).state ∧
      (mkV ['a', 'x'] 0).position = (mkV ['a', 'x'] 0).position) ∧
    Try (All [String ['a'], String ['b']]) (mkV ['a', 'b'] 0) =
      some (.str ['b'], true, mkV ['a', 'b'] 2) :=
  ⟨(try_reverts_state_and_position
      (All [String ['a'], String ['b']]) (mkV ['a', 'x'] 0)).1 .nil
      (mkV ['a', 'x'] 0) rfl,
    (try_reverts_state_and_position
      (All [String ['a'], String ['b']]) (mkV ['a', 'b'] 0)).2 (.str ['b'])
      (mkV ['a', 'b'] 2) rfl⟩

/-- C3 (code bug): `String(s)` pops `len(s)`, the byte length of `s`, into
the rune-indexed offset.  On the one-rune, two-byte string `"é"` over input
`"éx"` it succeeds but advances the offset by 2 instead of by the element
count 1, so the following element `'x'` becomes unreachable: the remaining
input after the call is empty. -/
theorem string_pops_byte_length :
    String ['é'] (mkV ['é', 'x'] 0) = some (.str ['é'], true, mkV ['é', 'x'] 2) ∧
    (['é'] : GoStr).length = 1 ∧
    goLen ['é'] = 2 ∧
    (mkV ['é', 'x'] 2).GetInput = [] :=
  ⟨rfl, rfl, rfl, rfl⟩

/-- C4 (code bug): `Get(n)` keeps the runes at indices
`offset … offset + n` inclusive, i.e. `n + 1` elements: `Get(1)` on `"ab"`
returns both elements.  Its availability guard also compares the byte
length of the input, so `Get(2)` on the one-element input `"é"` succeeds
(returning that single element) although fewer than 2 elements remain. -/
theorem get_returns_one_element_extra :
    (mkV ['a', 'b'] 0).Get 1 = (['a', 'b'], true) ∧
    (mkV ['é'] 0).Get 2 = (['é'], true) :=
  ⟨rfl, rfl⟩

/-- C5: `Satisfy(p)` succeeds exactly on a present next element satisfying
`p`, returning that element and advancing the offset by exactly 1; at end
of input, or when `p` rejects the next element, it fails and leaves the
vessel (in particular the offset) unchanged. -/
theorem satisfy_consumes_iff_check (check : Char → Bool) (v : StringVessel σ) :
    (∀ c, charAt v.input v.position.offset = some c → check c = true →
      Satisfy check v = some (.int c, true,
        { v with position := { v.position with offset := v.position.offset + 1 } })) ∧
    (charAt v.input v.position.offset = none →
      Satisfy check v = some (.nil, false, v)) ∧
    (∀ c, charAt v.input v.position.offset = some c → check c = false →
      Satisfy check v = some (.nil, false, v)) :=
  ⟨fun _ h hc => Satisfy_eq_some h hc,
    fun h => Satisfy_eq_none h,
    fun _ h hc => Satisfy_eq_reject h hc⟩

/-- Witness for C5: on input `"ab"` with the check `= 'a'`, `Satisfy`
succeeds returning `'a'` and moves the offset from 0 to 1; at offset 2
(end of input) it fails leaving the vessel unchanged; with the check
`= 'b'` it fails at offset 0 leaving the vessel unchanged. -/
theorem satisfy_consumes_iff_check_witness :
    Satisfy (fun c => c == 'a') (mkV ['a', 'b'] 0) =
      some (.int 'a', true, mkV ['a', 'b'] 1) ∧
    Satisfy (fun c => c == 'a') (mkV ['a', 'b'] 2) =
      some (.nil, false, mkV ['a', 'b'] 2) ∧
    Satisfy (fun c => c == 'b') (mkV ['a', 'b'] 0) =
      some (.nil, false, mkV ['a', 'b'] 0) :=
  ⟨(satisfy_consumes_iff_check (fun c => c == 'a') (mkV ['a', 'b'] 0)).1 'a' rfl rfl,
    (satisfy_consumes_iff_check (fun c => c == 'a') (mkV ['a', 'b'] 2)).2.1 rfl,
    (satisfy_consumes_iff_check (fun c => c == 'b') (mkV ['a', 'b'] 0)).2.2 'a' rfl rfl⟩

lemma manyIter_sound {q : Parser σ} :
    ∀ (fuel : Nat) (v : StringVessel σ) (xs : List Output) (vf : StringVessel σ),
      manyIter q fuel v = some (xs, vf) → ManyTrace q v xs vf := by
  intro fuel
  induction fuel with
  | zero => intro v xs vf h; simp [manyIter] at h
  | succ n ih =>
    intro v xs vf h
    rw [manyIter] at h
    split at h
    · simp at h
    · rename_i o v' hq
      simp only [Option.some.injEq, Prod.mk.injEq] at h
      obtain ⟨hxs, hvf⟩ := h
      subst hxs
      subst hvf
      exact ManyTrace.stop hq
    · rename_i o v' hq
      rw [Option.map_eq_some'] at h
      obtain ⟨⟨ys, v₂⟩, hit, heq⟩ := h
      simp only [Prod.mk.injEq] at heq
      obtain ⟨hxs, hvf⟩ := heq
      rw [hvf] at hit
      rw [← hxs]
      exact ManyTrace.step hq (ih v' ys vf hit)

/-- C2: whenever `Many(q)` returns, it reports a match (it never fails),
and its output is the slice of the outputs of the successful invocations
of `q`, in order (possibly empty), as captured by `ManyTrace`. -/
theorem many_never_fails (fuel : Nat) (q : Parser σ) (v : StringVessel σ)
    (out : Output) (b : Bool) (vf : StringVessel σ)
    (h : Many fuel q v = some (out, b, vf)) :
    b = true ∧ ∃ xs, out = .arr xs ∧ ManyTrace q v xs vf := by
  simp only [Many] at h
  rcases hit : manyIter q fuel v with _ | ⟨xs, v₂⟩ <;> rw [hit] at h
  · simp at h
  · simp only [Option.map_some', Option.some.injEq, Prod.mk.injEq] at h
    obtain ⟨ho, hb, hv⟩ := h
    subst hv
    exact ⟨hb.symm, xs, ho.symm, manyIter_sound fuel v xs v₂ hit⟩

/-- Witness for C2: `Many(String "a")` on `"aab"` (and, via the trace, on
its end-of-input tail) reports a match with the two collected outputs. -/
theorem many_never_fails_witness :
    true = true ∧ ∃ xs, Output.arr [Output.str ['a'], Output.str ['a']] = .arr xs ∧
      ManyTrace (String ['a']) (mkV ['a', 'a', 'b'] 0) xs (mkV ['a', 'a', 'b'] 2) :=
  many_never_fails 5 (String ['a']) (mkV ['a', 'a', 'b'] 0)
    (Output.arr [Output.str ['a'], Output.str ['a']]) true
    (mkV ['a', 'a', 'b'] 2) rfl

lemma sepIter_sound {d q : Parser σ} :
    ∀ (fuel : Nat) (v : StringVessel σ) (xs : List Output) (vf : StringVessel σ),
      sepIter d q fuel v = some (xs, vf) → SepTrace d q v xs vf := by
  intro fuel
  induction fuel with
  | zero => intro v xs vf h; simp [sepIter] at h
  | succ n ih =>
    intro v xs vf h
    rw [sepIter] at h
    split at h
    · simp at h
    · rename_i o v' hq
      simp only [Option.some.injEq, Prod.mk.injEq] at h
      obtain ⟨hxs, hvf⟩ := h
      subst hxs
      subst hvf
      exact SepTrace.stopMatch hq
    · rename_i o v₁ hq
      split at h
      · simp at h
      · rename_i o₂ v₂ hd
        simp only [Option.some.injEq, Prod.mk.injEq] at h
        obtain ⟨hxs, hvf⟩ := h
        subst hxs
        subst hvf
        exact SepTrace.stopSep hq hd
      · rename_i o₂ v₂ hd
        rw [Option.map_eq_some'] at h
        obtain ⟨⟨ys, v₃⟩, hit, heq⟩ := h
        simp only [Prod.mk.injEq] at heq
        obtain ⟨hxs, hvf⟩ := heq
        rw [hvf] at hit
        rw [← hxs]
        exact SepTrace.step hq hd (ih v₂ ys vf hit)

/-- C7: whenever `SepBy(delim, p)` returns, it reports a match (it never
fails), with output the ordered vector of `p`'s outputs, stopping as soon
as `p` or `delim` fails (`SepTrace`); concretely, on input `"a,a,a,"` with
`p = String "a"` and `delim = String ","` it succeeds with three matches,
the trailing delimiter tolerated. -/
theorem sepBy_never_fails :
    (∀ (σ : Type) (fuel : Nat) (d q : Parser σ) (v : StringVessel σ)
        (out : Output) (b : Bool) (vf : StringVessel σ),
      SepBy fuel d q v = some (out, b, vf) →
        b = true ∧ ∃ xs, out = .vec xs ∧ SepTrace d q v xs vf) ∧
    SepBy 10 (String [',']) (String ['a']) (mkV ['a', ',', 'a', ',', 'a', ','] 0) =
      some (.vec [.str ['a'], .str ['a'], .str ['a']], true,
        mkV ['a', ',', 'a', ',', 'a', ','] 6) := by
  refine ⟨?_, rfl⟩
  intro σ fuel d q v out b vf h
  simp only [SepBy] at h
  rcases hit : sepIter d q fuel v with _ | ⟨xs, v₂⟩ <;> rw [hit] at h
  · simp at h
  · simp only [Option.map_some', Option.some.injEq, Prod.mk.injEq] at h
    obtain ⟨ho, hb, hv⟩ := h
    subst hv
    exact ⟨hb.symm, xs, ho.symm, sepIter_sound fuel v xs v₂ hit⟩

/-- Witness for C7: the general part applied to the `"a,a,a,"` instance. -/
theorem sepBy_never_fails_witness :
    true = true ∧
      ∃ xs, Output.vec [Output.str ['a'], Output.str ['a'], Output.str ['a']] = .vec xs ∧
        SepTrace (String [',']) (String ['a']) (mkV ['a', ',', 'a', ',', 'a', ','] 0) xs
          (mkV ['a', ',', 'a', ',', 'a', ','] 6) :=
  sepBy_never_fails.1 Unit 10 (String [',']) (String ['a'])
    (mkV ['a', ',', 'a', ',', 'a', ','] 0)
    (Output.vec [Output.str ['a'], Output.str ['a'], Output.str ['a']]) true
    (mkV ['a', ',', 'a', ',', 'a', ','] 6) rfl

lemma collect_three {b m e : Parser σ} {v v₁ v₂ v₃ : StringVessel σ}
    {ob om oe : Output}
    (hb : b v = some (ob, true, v₁)) (hm : m v₁ = some (om, true, v₂))
    (he : e v₂ = some (oe, true, v₃)) :
    Collect [b, m, e] v = some (.vec [ob, om, oe], true, v₃) := by
  simp [Collect, collectIter, hb, hm, he]

/-- C6: `Between(begin, end, p)` behaves as `Try(Collect(begin, p, end))`
with the success output reduced to `p`'s output (the middle element of the
collected vector); on any failure of the three-part sequence the vessel's
`State` and `Position` are fully reverted to their pre-call values, and a
panicking sequence propagates. -/
theorem between_equals_try_collect (b e m : Parser σ) (v : StringVessel σ) :
    (∀ o vf, Try (Collect [b, m, e]) v = some (o, false, vf) →
      Between b e m v = some (.nil, false, vf) ∧
        vf.state = v.state ∧ vf.position = v.position) ∧
    (∀ ob om oe v₁ v₂ v₃, b v = some (ob, true, v₁) → m v₁ = some (om, true, v₂) →
      e v₂ = some (oe, true, v₃) →
      Between b e m v = some (om, true, v₃) ∧
        Try (Collect [b, m, e]) v = some (.vec [ob, om, oe], true, v₃)) ∧
    (Try (Collect [b, m, e]) v = none → Between b e m v = none) := by
  refine ⟨?_, ?_, ?_⟩
  · intro o vf h
    refine ⟨?_, Try_fail_restore h⟩
    simp [Between, h]
  · intro ob om oe v₁ v₂ v₃ hb hm he
    have ht := Try_succ (collect_three hb hm he)
    exact ⟨by simp [Between, ht], ht⟩
  · intro h
    simp [Between, h]

/-- Witness for C6: with `begin = String "("`, `end = String ")"`,
`p = String "a"`, the sequence fails on `"(b"` after consuming `"("` and
`Between` leaves the vessel fully reverted; on `"(a)"` it succeeds
returning `p`'s output `"a"` with the cursor after `")"`. -/
theorem between_equals_try_collect_witness :
    (Between (String ['(']) (String [')']) (String ['a']) (mkV ['(', 'b'] 0) =
        some (.nil, false, mkV ['(', 'b'] 0) ∧
      (mkV ['(', 'b'] 0).state = (mkV ['(', 'b'] 0).state ∧
        (mkV ['(', 'b'] 0).position = (mkV ['(', 'b'] 0).position) ∧
    (Between (String ['(']) (String [')']) (String ['a']) (mkV ['(', 'a', ')'] 0) =
        some (.str ['a'], true, mkV ['(', 'a', ')'] 3) ∧
      Try (Collect [String ['('], String ['a'], String [')']]) (mkV ['(', 'a', ')'] 0) =
        some (.vec [.str ['('], .str ['a'], .str [')']], true, mkV ['(', 'a', ')'] 3)) :=
  ⟨(between_equals_try_collect (String ['(']) (String [')']) (String ['a'])
      (mkV ['(', 'b'] 0)).1 .nil (mkV ['(', 'b'] 0) rfl,
    (between_equals_try_collect (String ['(']) (String [')']) (String ['a'])
      (mkV ['(', 'a', ')'] 0)).2.1 (.str ['(']) (.str ['a']) (.str [')'])
      (mkV ['(', 'a', ')'] 1) (mkV ['(', 'a', ')'] 2) (mkV ['(', 'a', ')'] 3)
      rfl rfl rfl⟩

/-- C8: `Identifier` fails exactly when the Spec's `IdentStart` fails: a
failing `IdentStart` makes `Identifier` return `(nil, false)` with the
vessel as the classifier left it — in particular, a classifier failing
without consuming leaves the whole vessel (offset included) at its
pre-call value; a succeeding `IdentStart` (yielding a rune) followed by
`Many(IdentLetter)` (yielding runes) makes `Identifier` succeed with the
concatenation of the `IdentStart` rune and the `Many` runes as a string. -/
theorem identifier_fails_iff_identStart (fuel : Nat) (v : StringVessel σ) :
    (∀ o c₁, v.spec.identStart ⟨v.state, v.input, v.position⟩ = some (o, false, c₁) →
      Identifier fuel v = some (.nil, false, v.withCore c₁)) ∧
    (∀ o, v.spec.identStart ⟨v.state, v.input, v.position⟩ =
        some (o, false, ⟨v.state, v.input, v.position⟩) →
      Identifier fuel v = some (.nil, false, v)) ∧
    (∀ c c₁ xs cs v₂,
      v.spec.identStart ⟨v.state, v.input, v.position⟩ = some (.int c, true, c₁) →
      Many fuel (PParser.lift v.spec.identLetter) (v.withCore c₁) =
        some (.arr xs, true, v₂) →
      extractRunes xs = some cs →
      Identifier fuel v = some (.str (c :: cs), true, v₂)) := by
  refine ⟨?_, ?_, ?_⟩
  · intro o c₁ h
    simp [Identifier, PParser.lift, h]
  · intro o h
    simp [Identifier, PParser.lift, h, StringVessel.withCore]
  · intro c c₁ xs cs v₂ h hM hx
    simp [Identifier, PParser.lift, h, hM, hx]

/-- Witness for C8: with `IdentStart` accepting letters and `IdentLetter`
letters-or-digits, `Identifier` on `"7abc"` fails leaving the offset at 0,
and on `"abc"` succeeds with output `"abc"` and offset 3. -/
theorem identifier_fails_iff_identStart_witness :
    Identifier 10 (mkIdV ['7', 'a', 'b', 'c'] 0) =
      some (.nil, false, mkIdV ['7', 'a', 'b', 'c'] 0) ∧
    Identifier 10 (mkIdV ['a', 'b', 'c'] 0) =
      some (.str ['a', 'b', 'c'], true, mkIdV ['a', 'b', 'c'] 3) :=
  ⟨(identifier_fails_iff_identStart 10 (mkIdV ['7', 'a', 'b', 'c'] 0)).2.1 .nil rfl,
    (identifier_fails_iff_identStart 10 (mkIdV ['a', 'b', 'c'] 0)).2.2 'a'
      ⟨(), ['a', 'b', 'c'], ⟨[], 0, 0, 1⟩⟩ [.int 'b', .int 'c'] ['b', 'c']
      (mkIdV ['a', 'b', 'c'] 3) rfl rfl rfl⟩

lemma dropAt_zero (s : GoStr) : dropAt s 0 = s := by
  cases s with
  | nil => rfl
  | cons c cs => rw [dropAt, if_pos rfl]

lemma dropAt_neg {s : GoStr} {i : Int} (h : i < 0) : dropAt s i = [] := by
  induction s generalizing i with
  | nil => rfl
  | cons c cs ih =>
    rw [dropAt, if_neg (by omega)]
    exact ih (by omega)

lemma dropAt_cons_succ {s : GoStr} {i : Int} {c : Char} {rest : GoStr}
    (h : dropAt s i = c :: rest) : dropAt s (i + 1) = rest := by
  induction s generalizing i with
  | nil => simp [dropAt] at h
  | cons a as ih =>
    by_cases hi : i = 0
    · subst hi
      rw [dropAt, if_pos rfl] at h
      rw [dropAt, if_neg (by omega)]
      have h1 : (0 : Int) + 1 - 1 = 0 := by ring
      rw [h1, dropAt_zero]
      exact (List.cons.injEq a as c rest ▸ h).2
    · by_cases hneg : i < 0
      · rw [dropAt_neg hneg] at h
        exact absurd h (by simp)
      · rw [dropAt, if_neg hi] at h
        have h2 := ih h
        have h3 : i - 1 + 1 = i := by ring
        rw [h3] at h2
        rw [dropAt, if_neg (by omega)]
        have h4 : i + 1 - 1 = i := by ring
        rw [h4]
        exact h2

lemma charAt_eq_head (s : GoStr) (i : Int) : charAt s i = (dropAt s i).head? := by
  induction s generalizing i with
  | nil => rfl
  | cons a as ih =>
    rw [charAt, dropAt]
    by_cases hi : i = 0
    · rw [if_pos hi, if_pos hi]
      rfl
    · rw [if_neg hi, if_neg hi]
      exact ih _

lemma advanceN_zero (v : StringVessel σ) : advanceN v 0 = v := by
  obtain ⟨st, inp, ⟨nm, ln, cl, o⟩, sp⟩ := v
  simp [advanceN]

lemma advanceN_pop (v : StringVessel σ) (k : Nat) :
    advanceN (v.Pop 1) k = advanceN v (k + 1) := by
  obtain ⟨st, inp, ⟨nm, ln, cl, o⟩, sp⟩ := v
  simp [advanceN, StringVessel.Pop]
  ring

lemma manyIter_spaces :
    ∀ (fuel : Nat) (v : StringVessel σ) (l : GoStr), v.GetInput = l →
      (l.takeWhile goIsSpace).length < fuel →
      manyIter (Satisfy goIsSpace) fuel v =
        some ((l.takeWhile goIsSpace).map Output.int,
          advanceN v (l.takeWhile goIsSpace).length) := by
  intro fuel
  induction fuel with
  | zero => intro v l _ h; omega
  | succ n ih =>
    intro v l hin hf
    rw [StringVessel.GetInput] at hin
    cases l with
    | nil =>
      have hnone : charAt v.input v.position.offset = none := by
        rw [charAt_eq_head, hin]
        rfl
      rw [manyIter, Satisfy_eq_none hnone]
      simp [advanceN_zero]
    | cons ch rest =>
      have hsome : charAt v.input v.position.offset = some ch := by
        rw [charAt_eq_head, hin]
        rfl
      cases hsp : goIsSpace ch with
      | false =>
        rw [manyIter, Satisfy_eq_reject hsome hsp]
        simp [List.takeWhile_cons, hsp, advanceN_zero]
      | true =>
        have hrest : (v.Pop 1).GetInput = rest := by
          rw [StringVessel.GetInput]
          exact dropAt_cons_succ hin
        have hlt : (rest.takeWhile goIsSpace).length < n := by
          rw [List.takeWhile_cons, hsp] at hf
          simpa using hf
        rw [manyIter, Satisfy_eq_some hsome hsp]
        simp only [ih (v.Pop 1) rest hrest hlt, Option.map_some']
        simp [List.takeWhile_cons, hsp, advanceN_pop]

lemma Whitespace_run {fuel : Nat} {v : StringVessel σ} {l : GoStr}
    (hin : v.GetInput = l) (hf : (l.takeWhile goIsSpace).length < fuel) :
    Whitespace fuel v = some (.arr ((l.takeWhile goIsSpace).map Output.int), true,
      advanceN v (l.takeWhile goIsSpace).length) := by
  simp only [Whitespace, Many]
  rw [manyIter_spaces fuel v l hin hf]
  rfl

/-- C9: `Lexeme(p)` runs `p`, then `Whitespace` unconditionally — also when
`p` failed — and returns `p`'s own output and match flag with the vessel
left by the whitespace pass; with enough fuel the cursor therefore ends
after the maximal whitespace run following wherever `p` stopped. -/
theorem lexeme_runs_whitespace_unconditionally (fuel : Nat) (p : Parser σ)
    (v : StringVessel σ) :
    (∀ out b v₁ wo wb v₂, p v = some (out, b, v₁) →
      Whitespace fuel v₁ = some (wo, wb, v₂) →
      Lexeme fuel p v = some (out, b, v₂)) ∧
    (∀ out b v₁ l, p v = some (out, b, v₁) → v₁.GetInput = l →
      (l.takeWhile goIsSpace).length < fuel →
      Lexeme fuel p v = some (out, b, advanceN v₁ (l.takeWhile goIsSpace).length)) := by
  constructor
  · intro out b v₁ wo wb v₂ hp hw
    simp [Lexeme, hp, hw]
  · intro out b v₁ l hp hin hf
    simp [Lexeme, hp, Whitespace_run hin hf]

/-- Witness for C9: `Lexeme(String "ab")` on `"ab  x"` succeeds with output
`"ab"` and the cursor after the two trailing spaces (offset 4); and
`Lexeme(String "z")` on `" x"` fails (flag false) yet still consumes the
leading space, ending at offset 1. -/
theorem lexeme_runs_whitespace_unconditionally_witness :
    Lexeme 5 (String ['a', 'b']) (mkV ['a', 'b', ' ', ' ', 'x'] 0) =
      some (.str ['a', 'b'], true, advanceN (mkV ['a', 'b', ' ', ' ', 'x'] 2) 2) ∧
    Lexeme 5 (String ['z']) (mkV [' ', 'x'] 0) =
      some (.nil, false, advanceN (mkV [' ', 'x'] 0) 1) :=
  ⟨(lexeme_runs_whitespace_unconditionally 5 (String ['a', 'b'])
      (mkV ['a', 'b', ' ', ' ', 'x'] 0)).2 (.str ['a', 'b']) true
      (mkV ['a', 'b', ' ', ' ', 'x'] 2) [' ', ' ', 'x'] rfl rfl (by decide),
    (lexeme_runs_whitespace_unconditionally 5 (String ['z'])
      (mkV [' ', 'x'] 0)).2 .nil false (mkV [' ', 'x'] 0) [' ', 'x'] rfl rfl
      (by decide)⟩

lemma Satisfy_preserves (check : Char → Bool) :
    Preserves (Satisfy check : Parser σ) := by
  intro v r h
  dsimp only [Satisfy] at h
  split at h <;> (injection h with h'; subst h'; exact ⟨rfl, rfl⟩)

lemma String_preserves (str : GoStr) : Preserves (String str : Parser σ) := by
  intro v r h
  dsimp only [String] at h
  split at h <;> (injection h with h'; subst h'; exact ⟨rfl, rfl⟩)

lemma manyIter_preserves {q : Parser σ} (hq : Preserves q) :
    ∀ (fuel : Nat) (v : StringVessel σ) (xs : List Output) (vf : StringVessel σ),
      manyIter q fuel v = some (xs, vf) → vf.input = v.input ∧ vf.spec = v.spec := by
  intro fuel
  induction fuel with
  | zero => intro v xs vf h; simp [manyIter] at h
  | succ n ih =>
    intro v xs vf h
    rw [manyIter] at h
    split at h
    · simp at h
    · rename_i o v' hqv
      simp only [Option.some.injEq, Prod.mk.injEq] at h
      obtain ⟨-, hvf⟩ := h
      rw [← hvf]
      exact hq v _ hqv
    · rename_i o v' hqv
      rw [Option.map_eq_some'] at h
      obtain ⟨⟨ys, v₂⟩, hit, heq⟩ := h
      simp only [Prod.mk.injEq] at heq
      obtain ⟨-, hvf⟩ := heq
      have h1 := hq v _ hqv
      have h2 := ih v' ys v₂ hit
      rw [← hvf]
      exact ⟨h2.1.trans h1.1, h2.2.trans h1.2⟩

lemma Many_preserves {q : Parser σ} (hq : Preserves q) (fuel : Nat) :
    Preserves (Many fuel q) := by
  intro v r h
  simp only [Many] at h
  rw [Option.map_eq_some'] at h
  obtain ⟨⟨xs, vf⟩, hit, heq⟩ := h
  rw [← heq]
  exact manyIter_preserves hq fuel v xs vf hit

lemma sepIter_preserves {d q : Parser σ} (hd : Preserves d) (hq : Preserves q) :
    ∀ (fuel : Nat) (v : StringVessel σ) (xs : List Output) (vf : StringVessel σ),
      sepIter d q fuel v = some (xs, vf) → vf.input = v.input ∧ vf.spec = v.spec := by
  intro fuel
  induction fuel with
  | zero => intro v xs vf h; simp [sepIter] at h
  | succ n ih =>
    intro v xs vf h
    rw [sepIter] at h
    split at h
    · simp at h
    · rename_i o v' hqv
      simp only [Option.some.injEq, Prod.mk.injEq] at h
      obtain ⟨-, hvf⟩ := h
      rw [← hvf]
      exact hq v _ hqv
    · rename_i o v₁ hqv
      have h1 := hq v _ hqv
      split at h
      · simp at h
      · rename_i o₂ v₂ hdv
        simp only [Option.some.injEq, Prod.mk.injEq] at h
        obtain ⟨-, hvf⟩ := h
        have h2 := hd v₁ _ hdv
        rw [← hvf]
        exact ⟨h2.1.trans h1.1, h2.2.trans h1.2⟩
      · rename_i o₂ v₂ hdv
        rw [Option.map_eq_some'] at h
        obtain ⟨⟨ys, v₃⟩, hit, heq⟩ := h
        simp only [Prod.mk.injEq] at heq
        obtain ⟨-, hvf⟩ := heq
        have h2 := hd v₁ _ hdv
        have h3 := ih v₂ ys v₃ hit
        rw [← hvf]
        exact ⟨h3.1.trans (h2.1.trans h1.1), h3.2.trans (h2.2.trans h1.2)⟩

lemma SepBy_preserves {d q : Parser σ} (hd : Preserves d) (hq : Preserves q)
    (fuel : Nat) : Preserves (SepBy fuel d q) := by
  intro v r h
  simp only [SepBy] at h
  rw [Option.map_eq_some'] at h
  obtain ⟨⟨xs, vf⟩, hit, heq⟩ := h
  rw [← heq]
  exact sepIter_preserves hd hq fuel v xs vf hit

lemma anyIter_preserves :
    ∀ (ps : List (Parser σ)), (∀ p ∈ ps, Preserves p) →
      ∀ (v : StringVessel σ) r, anyIter ps v = some r →
        r.2.2.input = v.input ∧ r.2.2.spec = v.spec := by
  intro ps
  induction ps with
  | nil =>
    intro _ v r h
    rw [anyIter] at h
    injection h with h'
    subst h'
    exact ⟨rfl, rfl⟩
  | cons p ps ih =>
    intro hps v r h
    rw [anyIter] at h
    split at h
    · simp at h
    · rename_i m v' hp
      injection h with h'
      subst h'
      exact hps p (by simp) v _ hp
    · rename_i m v' hp
      have h1 := hps p (by simp) v _ hp
      have h2 := ih (fun p' hp' => hps p' (by simp [hp'])) v' r h
      exact ⟨h2.1.trans h1.1, h2.2.trans h1.2⟩

lemma allIter_preserves :
    ∀ (ps : List (Parser σ)), (∀ p ∈ ps, Preserves p) →
      ∀ (m : Output) (b : Bool) (v : StringVessel σ) r, allIter ps m b v = some r →
        r.2.2.input = v.input ∧ r.2.2.spec = v.spec := by
  intro ps
  induction ps with
  | nil =>
    intro _ m b v r h
    rw [allIter] at h
    injection h with h'
    subst h'
    exact ⟨rfl, rfl⟩
  | cons p ps ih =>
    intro hps m b v r h
    rw [allIter] at h
    split at h
    · simp at h
    · rename_i m' v' hp
      injection h with h'
      subst h'
      exact hps p (by simp) v _ hp
    · rename_i m' v' hp
      have h1 := hps p (by simp) v _ hp
      have h2 := ih (fun p' hp' => hps p' (by simp [hp'])) m' true v' r h
      exact ⟨h2.1.trans h1.1, h2.2.trans h1.2⟩

lemma collectIter_preserves :
    ∀ (ps : List (Parser σ)), (∀ p ∈ ps, Preserves p) →
      ∀ (v : StringVessel σ) r, collectIter ps v = some r →
        r.2.input = v.input ∧ r.2.spec = v.spec := by
  intro ps
  induction ps with
  | nil =>
    intro _ v r h
    rw [collectIter] at h
    injection h with h'
    subst h'
    exact ⟨rfl, rfl⟩
  | cons p ps ih =>
    intro hps v r h
    rw [collectIter] at h
    split at h
    · simp at h
    · rename_i m v' hp
      injection h with h'
      subst h'
      exact hps p (by simp) v _ hp
    · rename_i m v' hp
      rw [Option.map_eq_some'] at h
      obtain ⟨⟨ro, v₂⟩, hit, heq⟩ := h
      have h1 := hps p (by simp) v _ hp
      have h2 := ih (fun p' hp' => hps p' (by simp [hp'])) v' (ro, v₂) hit
      rw [← heq]
      exact ⟨h2.1.trans h1.1, h2.2.trans h1.2⟩

lemma Collect_preserves {ps : List (Parser σ)} (hps : ∀ p ∈ ps, Preserves p) :
    Preserves (Collect ps) := by
  intro v r h
  simp only [Collect] at h
  rw [Option.map_eq_some'] at h
  obtain ⟨⟨ro, v₂⟩, hit, heq⟩ := h
  have h1 := collectIter_preserves ps hps v (ro, v₂) hit
  dsimp only at heq
  cases ro <;> (rw [← heq]; exact h1)

lemma Try_preserves {q : Parser σ} (hq : Preserves q) : Preserves (Try q) := by
  intro v r h
  rw [Try] at h
  split at h
  · simp at h
  · rename_i out v' hqv
    injection h with h'
    subst h'
    exact hq v _ hqv
  · rename_i out v' hqv
    injection h with h'
    subst h'
    exact ⟨(hq v _ hqv).1, (hq v _ hqv).2⟩

lemma Between_preserves {b e m : Parser σ} (hb : Preserves b) (he : Preserves e)
    (hm : Preserves m) : Preserves (Between b e m) := by
  have hc : Preserves (Collect [b, m, e]) := Collect_preserves (by
    intro p hp
    simp only [List.mem_cons, List.not_mem_nil, or_false] at hp
    rcases hp with h | h | h <;> subst h <;> assumption)
  have ht := Try_preserves hc
  intro v r h
  rw [Between] at h
  split at h
  · simp at h
  · rename_i a v' htr
    injection h with h'
    subst h'
    exact ht v (a, false, v') htr
  · rename_i parse v' htr
    have h1 := ht v _ htr
    split at h
    · rename_i xs
      split at h
      · rename_i m' hget
        injection h with h'
        subst h'
        exact h1
      · simp at h
    · simp at h

lemma Lexeme_preserves {q : Parser σ} (hq : Preserves q) (fuel : Nat) :
    Preserves (Lexeme fuel q) := by
  intro v r h
  rw [Lexeme] at h
  split at h
  · simp at h
  · rename_i out matched v₁ hqv
    split at h
    · simp at h
    · rename_i wo wb v₂ hw2
      injection h with h'
      subst h'
      have h1 := hq v _ hqv
      rw [Whitespace] at hw2
      have h2 := Many_preserves (Satisfy_preserves goIsSpace) fuel v₁ _ hw2
      exact ⟨h2.1.trans h1.1, h2.2.trans h1.2⟩

lemma lift_preserves_spec (p : PParser σ) :
    ∀ (v : StringVessel σ) r, PParser.lift p v = some r → r.2.2.spec = v.spec := by
  intro v r h
  rw [PParser.lift, Option.map_eq_some'] at h
  obtain ⟨a, -, heq⟩ := h
  rw [← heq]
  rfl

lemma lift_preserves_input {p : PParser σ} (hp : PreservesCore p) :
    ∀ (v : StringVessel σ) r, PParser.lift p v = some r → r.2.2.input = v.input := by
  intro v r h
  rw [PParser.lift, Option.map_eq_some'] at h
  obtain ⟨a, ha, heq⟩ := h
  rw [← heq]
  exact hp _ a ha

lemma Identifier_preserves {fuel : Nat} {v : StringVessel σ}
    {r : Output × Bool × StringVessel σ}
    (hs : PreservesCore v.spec.identStart) (hl : PreservesCore v.spec.identLetter)
    (h : Identifier fuel v = some r) :
    r.2.2.input = v.input ∧ r.2.2.spec = v.spec := by
  rw [Identifier] at h
  split at h
  · simp at h
  · rename_i o v₁ hst
    injection h with h'
    subst h'
    exact ⟨lift_preserves_input hs v (o, false, v₁) hst,
      lift_preserves_spec _ v (o, false, v₁) hst⟩
  · rename_i n v₁ hst
    have hlift : Preserves (PParser.lift v.spec.identLetter) := fun v' r' h' =>
      ⟨lift_preserves_input hl v' r' h', lift_preserves_spec _ v' r' h'⟩
    have h1 : v₁.input = v.input ∧ v₁.spec = v.spec :=
      ⟨lift_preserves_input hs v _ hst, lift_preserves_spec _ v _ hst⟩
    split at h
    · simp at h
    · rename_i ns ok2 v₂ hM
      have h2 := Many_preserves hlift fuel v₁ _ hM
      split at h
      · split at h
        · rename_i xs
          split at h
          · rename_i cs c hx
            injection h with h'
            subst h'
            exact ⟨h2.1.trans h1.1, h2.2.trans h1.2⟩
          · simp at h
        · simp at h
      · injection h with h'
        subst h'
        exact ⟨h2.1.trans h1.1, h2.2.trans h1.2⟩

lemma R_preserves {q : Parser σ} (hq : Preserves q) : Preserves (R q) :=
  fun v r h => hq v r h

/-- C10: every combinator of the library, applied to a `StringVessel`,
leaves the vessel's underlying input string and its `Spec` unchanged, on
success and on failure alike — for the higher-order combinators given
sub-parsers with the same property, and for `Identifier` given Spec
classifiers that leave the input unchanged; the only vessel fields any
combinator itself mutates are the position and (in `Try`) the user
state. -/
theorem combinators_preserve_input_and_spec (σ : Type) (fuel : Nat) :
    (∀ check : Char → Bool, Preserves (Satisfy check : Parser σ)) ∧
    (∀ str : GoStr, Preserves (String str : Parser σ)) ∧
    Preserves (Whitespace fuel : Parser σ) ∧
    (∀ q : Parser σ, Preserves q → Preserves (Many fuel q)) ∧
    (∀ d q : Parser σ, Preserves d → Preserves q → Preserves (SepBy fuel d q)) ∧
    (∀ ps : List (Parser σ), (∀ p ∈ ps, Preserves p) → Preserves (Any ps)) ∧
    (∀ ps : List (Parser σ), (∀ p ∈ ps, Preserves p) → Preserves (All ps)) ∧
    (∀ ps : List (Parser σ), (∀ p ∈ ps, Preserves p) → Preserves (Collect ps)) ∧
    (∀ b e m : Parser σ, Preserves b → Preserves e → Preserves m →
      Preserves (Between b e m)) ∧
    (∀ q : Parser σ, Preserves q → Preserves (Try q)) ∧
    (∀ q : Parser σ, Preserves q → Preserves (Lexeme fuel q)) ∧
    (∀ (v : StringVessel σ) (r : Output × Bool × StringVessel σ),
      PreservesCore v.spec.identStart → PreservesCore v.spec.identLetter →
      Identifier fuel v = some r →
      r.2.2.input = v.input ∧ r.2.2.spec = v.spec) ∧
    (∀ q : Parser σ, Preserves q → Preserves (R q)) :=
  ⟨Satisfy_preserves,
    String_preserves,
    Many_preserves (Satisfy_preserves goIsSpace) fuel,
    fun _ hq => Many_preserves hq fuel,
    fun _ _ hd hq => SepBy_preserves hd hq fuel,
    fun ps hps v r h => anyIter_preserves ps hps v r h,
    fun ps hps v r h => allIter_preserves ps hps .nil false v r h,
    fun _ hps => Collect_preserves hps,
    fun _ _ _ hb he hm => Between_preserves hb he hm,
    fun _ hq => Try_preserves hq,
    fun _ hq => Lexeme_preserves hq fuel,
    fun _ _ hs hl h => Identifier_preserves hs hl h,
    fun _ hq => R_preserves hq⟩

/-- Witness for C10: `Many(Satisfy(IsSpace))` run on a concrete vessel —
its sub-parser preservation hypothesis discharged by the `Satisfy`
conjunct — leaves the input string and the Spec of the vessel intact. -/
theorem combinators_preserve_input_and_spec_witness :
    (mkV [' ', 'a'] 1).input = (mkV [' ', 'a'] 0).input ∧
      (mkV [' ', 'a'] 1).spec = (mkV [' ', 'a'] 0).spec :=
  ((combinators_preserve_input_and_spec Unit 5).2.2.2.1 (Satisfy goIsSpace)
      ((combinators_preserve_input_and_spec Unit 5).1 goIsSpace))
    (mkV [' ', 'a'] 0) (.arr [.int ' '], true, mkV [' ', 'a'] 1) rfl

end Parsec
